import Mathlib

/-!
Verification of the py2store core: the key-shape codecs of
`py2store/key_mappers/tuples.py` and the capability interface hierarchy of
`py2store/base.py`, shallowly embedded in Lean. Python strings are modelled
as `List Char`, Python dicts as ordered association lists with distinct keys,
and fallible Python code as `Except`-valued functions.
-/

/-- Modelled from the spec: the builtin Python error kinds that the codecs may
propagate or wrap (the spec treats the raising helper of `py2store.errors`,
which is not under `src/`, as a given primitive). -/
inductive PyBaseErr where
  | keyError (key : String)
  | indexError (msg : String)
  | valueError (msg : String)
  deriving DecidableEq

/-- Modelled from the spec: the distinguished error kinds surfaced by the
core. `KeyValidationError` of `py2store.errors` can be raised with a message
(by `_assert_condition` or directly by a codec) or wrapping an underlying
builtin error; a builtin error can also propagate unwrapped; the disabled
bulk-clear raises `NotImplementedError`. -/
inductive PyErr where
  | keyValidationError (msg : String)
  | keyValidationWrapping (e : PyBaseErr)
  | notImplementedError (msg : String)
  | propagated (e : PyBaseErr)
  deriving DecidableEq

/-- Whether an error is of the key-validation kind (a `KeyValidationError`
instance, raised directly or wrapping an underlying error). -/
def PyErr.isKeyValidation : PyErr → Bool
  | .keyValidationError _ => true
  | .keyValidationWrapping _ => true
  | _ => false

/-- Whether a computation raised an error of the key-validation kind. -/
def raisesKeyValidation {β : Type} : Except PyErr β → Bool
  | .error e => e.isKeyValidation
  | .ok _ => false

/-- Modelled from the spec: `__assert_condition` of `tuples.py`, i.e.
`_assert_condition` specialised to `KeyValidationError`: raises the typed
error carrying the message when the boolean condition is false. -/
def assertCondition (cond : Bool) (msg : String) : Except PyErr Unit :=
  if cond then .ok () else .error (.keyValidationError msg)

/-- A Python dict, modelled as its ordered list of key-value entries (a
genuine dict has pairwise distinct keys; theorems assume that where it
matters). -/
abbrev PyDict (K V : Type) := List (K × V)

/-- First-match lookup of a key among the entries (total, `Option`-valued). -/
def pyLookup {K V : Type} [DecidableEq K] : PyDict K V → K → Option V
  | [], _ => none
  | (k2, v) :: rest, k => if k2 = k then some v else pyLookup rest k

/-- Models Python item access `d[f]`: the value at the key, or a builtin
`KeyError` when the key is absent. -/
def dictGetItem {K V : Type} [DecidableEq K] [ToString K] (d : PyDict K V) (k : K) :
    Except PyBaseErr V :=
  match pyLookup d k with
  | some v => .ok v
  | none => .error (.keyError (toString k))

/-- Models the generator expression `tuple(d[f] for f in fields)`: looks the
fields up left to right, propagating the first `KeyError` unwrapped. -/
def getItems {K V : Type} [DecidableEq K] [ToString K] (d : PyDict K V) :
    List K → Except PyErr (List V)
  | [] => .ok []
  | f :: rest =>
    match dictGetItem d f with
    | .ok v =>
      match getItems d rest with
      | .ok vs => .ok (v :: vs)
      | .error e => .error e
    | .error e => .error (.propagated e)

/-- Models `tuple_of_dict` of `tuples.py`: asserts
`len(fields) == len(d)` with a key-validation error, then collects
`d[f]` for each field in order. -/
def tuple_of_dict {K V : Type} [DecidableEq K] [ToString K]
    (d : PyDict K V) (fields : List K) : Except PyErr (List V) :=
  match assertCondition (fields.length == d.length)
      ("len(d)=" ++ toString d.length ++ " but len(fields)=" ++ toString fields.length) with
  | .error e => .error e
  | .ok _ => getItems d fields

/-- Models Python dict assignment `d[k] = v`: an existing key keeps its
position and gets the new value; a new key is appended at the end. -/
def pyDictInsert {K V : Type} [DecidableEq K] (d : PyDict K V) (k : K) (v : V) : PyDict K V :=
  if (pyLookup d k).isSome then
    d.map (fun p => if p.1 = k then (k, v) else p)
  else d ++ [(k, v)]

/-- Models a Python dict comprehension over a list of key-value pairs:
sequential insertion starting from the empty dict. -/
def pyDictOfPairs {K V : Type} [DecidableEq K] (ps : List (K × V)) : PyDict K V :=
  ps.foldl (fun d p => pyDictInsert d p.1 p.2) []

/-- Models `dict_of_tuple` of `tuples.py`: asserts
`len(fields) == len(t)` with a key-validation error, then builds
the dict comprehension over `zip(fields, t)`. -/
def dict_of_tuple {K V : Type} [DecidableEq K]
    (t : List V) (fields : List K) : Except PyErr (PyDict K V) :=
  match assertCondition (fields.length == t.length)
      ("len(t)=" ++ toString t.length ++ " but len(fields)=" ++ toString fields.length) with
  | .error e => .error e
  | .ok _ => .ok (pyDictOfPairs (fields.zip t))

/-- Models Python dict equality `d1 == d2`: same number of entries and every
entry of the first is an entry of the second (for genuine dicts, whose keys
are pairwise distinct, this is symmetric). -/
def pyDictEq {K V : Type} [DecidableEq K] [DecidableEq V] (d1 d2 : PyDict K V) : Bool :=
  d1.length == d2.length && d1.all (fun p => pyLookup d2 p.1 == some p.2)

/-- Models the counting loop of `AbstractKeys.__len__`. -/
def lenLoop {α : Type} : List α → Nat → Nat
  | [], count => count
  | _ :: rest, count => lenLoop rest (count + 1)

/-- Models `AbstractKeys.__len__` of `base.py`, applied to the key sequence a
full iteration of the backend primitive `__iter__` yields: drains the
iteration, incrementing a counter from 0. -/
def AbstractKeys.len {α : Type} (iterKeys : List α) : Nat :=
  lenLoop iterKeys 0

/-- Models `AbstractKeys.__contains__` of `base.py`, applied to the key
sequence a full iteration yields: scans the iteration and returns `true` at
the first element equal to `k`, `false` when the iteration is exhausted. -/
def AbstractKeys.contains {α : Type} [DecidableEq α] : List α → α → Bool
  | [], _ => false
  | x :: rest, k => if x = k then true else AbstractKeys.contains rest k

/-- Models `AbstractObjStore.clear` of `base.py` over an arbitrary backend
state type: raises `NotImplementedError` with the source message and leaves
the state untouched (state-passing embedding of the method). -/
def AbstractObjStore.clear {σ : Type} (self : σ) : Except PyErr Unit × σ :=
  (.error (.notImplementedError
    "clear method was removed from MutableMapping subclass for safety reasons"), self)

lemma lenLoop_eq {α : Type} (l : List α) : ∀ n : Nat, lenLoop l n = l.length + n := by
  induction l with
  | nil => intro n; simp [lenLoop]
  | cons x rest ih =>
    intro n
    simp only [lenLoop, ih, List.length_cons]
    omega

lemma abstractKeys_contains_iff {α : Type} [DecidableEq α] (l : List α) (k : α) :
    AbstractKeys.contains l k = true ↔ k ∈ l := by
  induction l with
  | nil => simp [AbstractKeys.contains]
  | cons x rest ih =>
    by_cases hx : x = k
    · subst hx; simp [AbstractKeys.contains]
    · simp [AbstractKeys.contains, hx, ih, Ne.symm hx]

/-- C1: for a backend supplying only the iteration primitive, the derived
`__contains__` returns `True` exactly when some element of the full iteration
output equals the probed key, and the derived `__len__` equals the number of
elements of the full iteration output. -/
theorem abstractKeys_derived_ops_agree {α : Type} [DecidableEq α]
    (iterKeys : List α) (k : α) :
    (AbstractKeys.contains iterKeys k = true ↔ k ∈ iterKeys)
    ∧ AbstractKeys.len iterKeys = iterKeys.length := by
  refine ⟨abstractKeys_contains_iff iterKeys k, ?_⟩
  simp [AbstractKeys.len, lenLoop_eq]

/-- C1 witness: the derived operations on the concrete iteration output
`[10, 20, 30]` agree with the reference collection. -/
theorem abstractKeys_derived_ops_agree_witness :
    (AbstractKeys.contains [10, 20, 30] 20 = true ↔ 20 ∈ [10, 20, 30])
    ∧ AbstractKeys.len [10, 20, 30] = [10, 20, 30].length :=
  abstractKeys_derived_ops_agree [10, 20, 30] 20

/-- C2: on every backend state, `AbstractObjStore.clear` raises the
unsupported-operation error (`NotImplementedError`) and leaves the state
unchanged; the result does not depend on the state. -/
theorem objStore_clear_always_unsupported {σ : Type} (s : σ) :
    (AbstractObjStore.clear s).1 = Except.error (PyErr.notImplementedError
      "clear method was removed from MutableMapping subclass for safety reasons")
    ∧ (AbstractObjStore.clear s).2 = s :=
  ⟨rfl, rfl⟩

/-- C2 witness: bulk-clear fails on the concrete empty store. -/
theorem objStore_clear_always_unsupported_witness :
    (AbstractObjStore.clear ([] : PyDict String Nat)).1
      = Except.error (PyErr.notImplementedError
        "clear method was removed from MutableMapping subclass for safety reasons")
    ∧ (AbstractObjStore.clear ([] : PyDict String Nat)).2 = [] :=
  objStore_clear_always_unsupported ([] : PyDict String Nat)

lemma pyLookup_eq_none_iff {K V : Type} [DecidableEq K] (d : PyDict K V) (k : K) :
    pyLookup d k = none ↔ k ∉ d.map Prod.fst := by
  induction d with
  | nil => simp [pyLookup]
  | cons p rest ih =>
    obtain ⟨k2, v⟩ := p
    by_cases h : k2 = k
    · subst h; simp [pyLookup]
    · simp [pyLookup, h, ih, Ne.symm h]

lemma pyLookup_isSome_iff {K V : Type} [DecidableEq K] (d : PyDict K V) (k : K) :
    (pyLookup d k).isSome = true ↔ k ∈ d.map Prod.fst := by
  rw [← not_iff_not, Option.not_isSome_iff_eq_none]
  exact pyLookup_eq_none_iff d k

lemma getItems_ok_of_mem {K V : Type} [DecidableEq K] [ToString K] (d : PyDict K V) :
    ∀ fields : List K, (∀ f ∈ fields, f ∈ d.map Prod.fst) →
      ∃ vs, getItems d fields = .ok vs
        ∧ List.Forall₂ (fun f v => pyLookup d f = some v) fields vs := by
  intro fields
  induction fields with
  | nil => exact fun _ => ⟨[], rfl, List.Forall₂.nil⟩
  | cons f rest ih =>
    intro h
    have hf : f ∈ d.map Prod.fst := h f (List.mem_cons_self f rest)
    obtain ⟨v, hv⟩ := Option.isSome_iff_exists.mp ((pyLookup_isSome_iff d f).mpr hf)
    obtain ⟨vs, hvs, hfa⟩ := ih (fun g hg => h g (List.mem_cons_of_mem f hg))
    exact ⟨v :: vs, by simp [getItems, dictGetItem, hv, hvs], List.Forall₂.cons hv hfa⟩

lemma getItems_keyError {K V : Type} [DecidableEq K] [ToString K] (d : PyDict K V) :
    ∀ fields : List K, (∃ f ∈ fields, pyLookup d f = none) →
      ∃ k, getItems d fields = .error (.propagated (.keyError k)) := by
  intro fields
  induction fields with
  | nil => rintro ⟨f, hf, _⟩; simp at hf
  | cons f rest ih =>
    rintro ⟨g, hg, hnone⟩
    cases hvf : pyLookup d f with
    | none => exact ⟨toString f, by simp [getItems, dictGetItem, hvf]⟩
    | some v =>
      have hgrest : g ∈ rest := by
        rcases List.mem_cons.mp hg with hgf | hgrest
        · subst hgf; rw [hvf] at hnone; cases hnone
        · exact hgrest
      obtain ⟨k, hk⟩ := ih ⟨g, hgrest, hnone⟩
      exact ⟨k, by simp [getItems, dictGetItem, hvf, hk]⟩

lemma getItems_congr {K V : Type} [DecidableEq K] [ToString K] (d1 d2 : PyDict K V) :
    ∀ fields : List K, (∀ f ∈ fields, pyLookup d1 f = pyLookup d2 f) →
      getItems d1 fields = getItems d2 fields := by
  intro fields
  induction fields with
  | nil => exact fun _ => rfl
  | cons f rest ih =>
    intro h
    have hf := h f (List.mem_cons_self f rest)
    have hrest := ih (fun g hg => h g (List.mem_cons_of_mem f hg))
    simp [getItems, dictGetItem, hf, hrest]

lemma foldl_pyDictInsert_fresh {K V : Type} [DecidableEq K] :
    ∀ (ps : List (K × V)) (acc : PyDict K V),
      ((acc ++ ps).map Prod.fst).Nodup →
      ps.foldl (fun d p => pyDictInsert d p.1 p.2) acc = acc ++ ps := by
  intro ps
  induction ps with
  | nil => intro acc _; simp
  | cons p ps' ih =>
    intro acc hnd
    obtain ⟨k, v⟩ := p
    have hk : k ∉ acc.map Prod.fst := by
      rw [List.map_append, List.nodup_append] at hnd
      intro hmem
      exact hnd.2.2 hmem (by simp)
    have hnone : (pyLookup acc k).isSome = false := by
      rw [Bool.eq_false_iff]
      intro hs
      exact hk ((pyLookup_isSome_iff acc k).mp hs)
    have hstep : pyDictInsert acc k v = acc ++ [(k, v)] := by
      simp [pyDictInsert, hnone]
    rw [List.foldl_cons]
    simp only [hstep]
    rw [ih (acc ++ [(k, v)]) (by rwa [List.append_assoc]), List.append_assoc]
    rfl

lemma pyDictOfPairs_eq_self {K V : Type} [DecidableEq K]
    (ps : List (K × V)) (hnd : (ps.map Prod.fst).Nodup) : pyDictOfPairs ps = ps := by
  have := foldl_pyDictInsert_fresh ps [] (by simpa using hnd)
  simpa [pyDictOfPairs] using this

lemma getItems_zip_self {K V : Type} [DecidableEq K] [ToString K] :
    ∀ (fields : List K) (t : List V), fields.Nodup → fields.length = t.length →
      getItems (fields.zip t) fields = .ok t := by
  intro fields
  induction fields with
  | nil =>
    intro t _ hlen
    cases t with
    | nil => rfl
    | cons v ts => simp at hlen
  | cons f fs ih =>
    intro t hnd hlen
    cases t with
    | nil => simp at hlen
    | cons v ts =>
      obtain ⟨hfnotin, hfsnd⟩ := List.nodup_cons.mp hnd
      have hhead : pyLookup ((f, v) :: fs.zip ts) f = some v := by
        simp [pyLookup]
      have htail : getItems ((f, v) :: fs.zip ts) fs = getItems (fs.zip ts) fs := by
        apply getItems_congr
        intro g hg
        have : f ≠ g := fun h => hfnotin (h ▸ hg)
        simp [pyLookup, this]
      have hrec := ih ts hfsnd (by simpa using hlen)
      simp [List.zip_cons_cons, getItems, dictGetItem, hhead, htail, hrec]

lemma tuple_of_dict_ok_len {K V : Type} [DecidableEq K] [ToString K]
    (d : PyDict K V) (fields : List K) (hlen : fields.length = d.length) :
    tuple_of_dict d fields = getItems d fields := by
  simp [tuple_of_dict, assertCondition, hlen]

lemma tuple_of_dict_arity {K V : Type} [DecidableEq K] [ToString K]
    (d : PyDict K V) (fields : List K) (hlen : fields.length ≠ d.length) :
    raisesKeyValidation (tuple_of_dict d fields) = true := by
  have hb : (fields.length == d.length) = false := beq_eq_false_iff_ne.mpr hlen
  simp [tuple_of_dict, assertCondition, hb, raisesKeyValidation, PyErr.isKeyValidation]

lemma dict_of_tuple_ok_len {K V : Type} [DecidableEq K]
    (t : List V) (fields : List K) (hlen : fields.length = t.length) :
    dict_of_tuple t fields = .ok (pyDictOfPairs (fields.zip t)) := by
  simp [dict_of_tuple, assertCondition, hlen]

lemma dict_of_tuple_arity {K V : Type} [DecidableEq K]
    (t : List V) (fields : List K) (hlen : fields.length ≠ t.length) :
    raisesKeyValidation (dict_of_tuple t fields) = true := by
  have hb : (fields.length == t.length) = false := beq_eq_false_iff_ne.mpr hlen
  simp [dict_of_tuple, assertCondition, hb, raisesKeyValidation, PyErr.isKeyValidation]

/-- C3: for a mapping `d` (distinct keys) and a field list that is a
permutation of the keys of `d`, converting to a tuple and back yields a dict
equal (in the Python sense) to `d`. -/
theorem dict_tuple_roundtrip_perm {K V : Type} [DecidableEq K] [DecidableEq V] [ToString K]
    (d : PyDict K V) (fields : List K)
    (hnd : (d.map Prod.fst).Nodup) (hperm : fields.Perm (d.map Prod.fst)) :
    ∃ t d2, tuple_of_dict d fields = .ok t ∧ dict_of_tuple t fields = .ok d2
      ∧ pyDictEq d2 d = true := by
  have hlen : fields.length = d.length := by simpa using hperm.length_eq
  have hmem : ∀ f ∈ fields, f ∈ d.map Prod.fst := fun f hf => hperm.mem_iff.mp hf
  obtain ⟨vs, hvs, hfa⟩ := getItems_ok_of_mem d fields hmem
  have hlenvs : fields.length = vs.length := hfa.length_eq
  have hzip : ∀ p ∈ fields.zip vs, pyLookup d p.1 = some p.2 := by
    intro p hp
    obtain ⟨a, b⟩ := p
    exact (List.forall₂_iff_zip.mp hfa).2 hp
  have hfnd : fields.Nodup := hperm.nodup_iff.mpr hnd
  have hkeys : (fields.zip vs).map Prod.fst = fields :=
    List.map_fst_zip fields vs (le_of_eq hlenvs)
  refine ⟨vs, fields.zip vs, ?_, ?_, ?_⟩
  · rw [tuple_of_dict_ok_len d fields hlen, hvs]
  · rw [dict_of_tuple_ok_len vs fields hlenvs,
      pyDictOfPairs_eq_self (fields.zip vs) (by rwa [hkeys])]
  · rw [pyDictEq, Bool.and_eq_true]
    constructor
    · have : (fields.zip vs).length = d.length := by
        rw [List.length_zip fields vs, ← hlenvs, Nat.min_self, hlen]
      simpa using this
    · rw [List.all_eq_true]
      intro p hp
      simpa using hzip p hp

/-- C3 witness: the round trip at the concrete mapping
`[(a, 1), (b, 2)]` with the reversed field list. -/
theorem dict_tuple_roundtrip_perm_witness :
    ∃ t d2, tuple_of_dict [("a", (1 : Nat)), ("b", 2)] ["b", "a"] = .ok t
      ∧ dict_of_tuple t ["b", "a"] = .ok d2
      ∧ pyDictEq d2 [("a", (1 : Nat)), ("b", 2)] = true :=
  dict_tuple_roundtrip_perm [("a", (1 : Nat)), ("b", 2)] ["b", "a"]
    (by decide) (by decide)

/-- C4 counterexample: with the duplicated field list `[a, a]` (same length
as the tuple `(1, 2)`), the comprehension collapses to a one-entry dict and
the way back raises a key-validation error instead of returning the tuple. -/
theorem tuple_dict_roundtrip_counterexample :
    dict_of_tuple [(1 : Nat), 2] ["a", "a"] = .ok [("a", 2)]
    ∧ raisesKeyValidation (tuple_of_dict [("a", (2 : Nat))] ["a", "a"]) = true := by
  constructor
  · rfl
  · decide

/-- C4 amended: for a tuple `t` and an equal-length field list with pairwise
distinct fields, converting to a dict and back returns `t` exactly. -/
theorem tuple_dict_roundtrip_amended {K V : Type} [DecidableEq K] [ToString K]
    (t : List V) (fields : List K) (hnd : fields.Nodup) (hlen : fields.length = t.length) :
    ∃ d, dict_of_tuple t fields = .ok d ∧ tuple_of_dict d fields = .ok t := by
  have hkeys : (fields.zip t).map Prod.fst = fields :=
    List.map_fst_zip fields t (le_of_eq hlen)
  refine ⟨fields.zip t, ?_, ?_⟩
  · rw [dict_of_tuple_ok_len t fields hlen,
      pyDictOfPairs_eq_self (fields.zip t) (by rwa [hkeys])]
  · have hlz : fields.length = (fields.zip t).length := by
      rw [List.length_zip fields t, hlen, Nat.min_self]
    rw [tuple_of_dict_ok_len (fields.zip t) fields hlz]
    exact getItems_zip_self fields t hnd hlen

/-- C4 witness: the amended round trip at the concrete tuple `(5, 7)` and
distinct fields `[x, y]`. -/
theorem tuple_dict_roundtrip_amended_witness :
    ∃ d, dict_of_tuple [(5 : Nat), 7] ["x", "y"] = .ok d
      ∧ tuple_of_dict d ["x", "y"] = .ok [(5 : Nat), 7] :=
  tuple_dict_roundtrip_amended [(5 : Nat), 7] ["x", "y"] (by decide) (by decide)

/-- C6: `tuple_of_dict` raises a key-validation error whenever the field list
length differs from the dict length, `dict_of_tuple` raises one whenever the
field list length differs from the tuple length, and in particular
`tuple_of_dict` on the two-entry dict with the one-field list fails so. -/
theorem codec_arity_errors {K V : Type} [DecidableEq K] [ToString K]
    (d : PyDict K V) (fields : List K) (t : List V) (fields2 : List K)
    (h1 : fields.length ≠ d.length) (h2 : fields2.length ≠ t.length) :
    raisesKeyValidation (tuple_of_dict d fields) = true
    ∧ raisesKeyValidation (dict_of_tuple t fields2) = true
    ∧ raisesKeyValidation (tuple_of_dict [("a", (1 : Nat)), ("b", 2)] ["a"]) = true :=
  ⟨tuple_of_dict_arity d fields h1, dict_of_tuple_arity t fields2 h2, by decide⟩

/-- C6 witness: arity mismatches at concrete inputs fail with the
key-validation kind. -/
theorem codec_arity_errors_witness :
    raisesKeyValidation (tuple_of_dict [("a", (1 : Nat)), ("b", 2)] ["a"]) = true
    ∧ raisesKeyValidation (dict_of_tuple [(1 : Nat), 2, 3] ["c", "b"]) = true
    ∧ raisesKeyValidation (tuple_of_dict [("a", (1 : Nat)), ("b", 2)] ["a"]) = true :=
  codec_arity_errors [("a", (1 : Nat)), ("b", 2)] ["a"] [(1 : Nat), 2, 3] ["c", "b"]
    (by decide) (by decide)

/-- A Python string, modelled as its list of characters. -/
abbrev Str := List Char

/-- Models Python string join `sep.join(d)` (the body of `dsv_of_list`). -/
def joinSep (sep : Str) : List Str → Str
  | [] => []
  | [x] => x
  | x :: y :: rest => x ++ sep ++ joinSep sep (y :: rest)

/-- Models `dsv_of_list` of `tuples.py`: the delimiter-joined string; no
shape check, the empty sequence gives the empty string. -/
def dsv_of_list (d : List Str) (sep : Str) : Str := joinSep sep d

/-- Models Python string split `d.split(sep)` for a non-empty separator with
head `sh` and tail `st`: scans left to right, cutting at each leftmost,
non-overlapping occurrence of the separator; `acc` holds the characters of
the current chunk in reverse. The fuel bounds the scan; every call keeps it
at least the length of the remaining string, so it never runs out. -/
def splitAuxF (sh : Char) (st : Str) : Nat → Str → Str → List Str
  | _, [], acc => [acc.reverse]
  | 0, c :: rest, acc => [acc.reverse ++ c :: rest]
  | fuel + 1, c :: rest, acc =>
    if c = sh ∧ st.isPrefixOf rest = true then
      acc.reverse :: splitAuxF sh st fuel (rest.drop st.length) []
    else
      splitAuxF sh st fuel rest (c :: acc)

/-- Models `list_of_dsv` of `tuples.py`: the empty string maps to the empty
list (the explicit special case of the source, instead of the naive
split-returns-one-empty-element behaviour); otherwise Python split, which
raises a builtin `ValueError` on an empty separator. -/
def list_of_dsv (d : Str) (sep : Str) : Except PyErr (List Str) :=
  if d = [] then .ok []
  else
    match sep with
    | [] => .error (.propagated (.valueError "empty separator"))
    | sh :: st => .ok (splitAuxF sh st d.length d [])

lemma isPrefixOf_self_append (st rest : Str) : st.isPrefixOf (st ++ rest) = true := by
  induction st with
  | nil => simp [List.isPrefixOf]
  | cons c t ih => simp [List.isPrefixOf, ih]

lemma splitAuxF_fuel_irrel (sh : Char) (st : Str) :
    ∀ (fuel fuel' : Nat) (s acc : Str), s.length ≤ fuel → s.length ≤ fuel' →
      splitAuxF sh st fuel s acc = splitAuxF sh st fuel' s acc := by
  intro fuel
  induction fuel with
  | zero =>
    intro fuel' s acc h _
    have hs : s = [] := List.length_eq_zero.mp (Nat.le_zero.mp h)
    subst hs
    cases fuel' <;> rfl
  | succ f ih =>
    intro fuel' s acc h h'
    cases s with
    | nil => cases fuel' <;> rfl
    | cons c rest =>
      cases fuel' with
      | zero => simp at h'
      | succ f' =>
        have hr : rest.length ≤ f := Nat.succ_le_succ_iff.mp (by simpa using h)
        have hr' : rest.length ≤ f' := Nat.succ_le_succ_iff.mp (by simpa using h')
        simp only [splitAuxF]
        by_cases hc : c = sh ∧ st.isPrefixOf rest = true
        · rw [if_pos hc, if_pos hc]
          congr 1
          exact ih f' (rest.drop st.length) []
            (le_trans (by simp [List.length_drop]) hr)
            (le_trans (by simp [List.length_drop]) hr')
        · rw [if_neg hc, if_neg hc]
          exact ih f' rest (c :: acc) hr hr'

lemma splitAuxF_chunk (sh : Char) (st : Str) :
    ∀ (x rest acc : Str) (fuel : Nat),
      (∀ c ∈ x, c ∉ sh :: st) → (x ++ (sh :: st) ++ rest).length ≤ fuel →
      splitAuxF sh st fuel (x ++ (sh :: st) ++ rest) acc
        = (acc.reverse ++ x) :: splitAuxF sh st rest.length rest [] := by
  intro x
  induction x with
  | nil =>
    intro rest acc fuel _ hf
    simp only [List.nil_append, List.cons_append] at hf ⊢
    cases fuel with
    | zero => simp at hf
    | succ f =>
      simp only [splitAuxF]
      rw [if_pos ⟨trivial, isPrefixOf_self_append st rest⟩, List.drop_left st rest]
      have hrf : rest.length ≤ f := by
        simp only [List.length_cons, List.length_append] at hf
        omega
      rw [splitAuxF_fuel_irrel sh st f rest.length rest [] hrf (le_refl _)]
      simp
  | cons c x' ihx =>
    intro rest acc fuel hx hf
    have hcsh : c ≠ sh := fun h =>
      hx c (List.mem_cons_self c x') (h ▸ List.mem_cons_self sh st)
    cases fuel with
    | zero => simp at hf
    | succ f =>
      simp only [List.cons_append] at hf ⊢
      simp only [splitAuxF]
      rw [if_neg (fun h => hcsh h.1)]
      rw [ihx rest (c :: acc) f (fun d hd => hx d (List.mem_cons_of_mem c hd))
        (Nat.succ_le_succ_iff.mp (by simpa using hf))]
      simp

lemma splitAuxF_last (sh : Char) (st : Str) :
    ∀ (x acc : Str) (fuel : Nat), (∀ c ∈ x, c ∉ sh :: st) → x.length ≤ fuel →
      splitAuxF sh st fuel x acc = [acc.reverse ++ x] := by
  intro x
  induction x with
  | nil => intro acc fuel _ _; cases fuel <;> simp [splitAuxF]
  | cons c x' ihx =>
    intro acc fuel hx hf
    have hcsh : c ≠ sh := fun h =>
      hx c (List.mem_cons_self c x') (h ▸ List.mem_cons_self sh st)
    cases fuel with
    | zero => simp at hf
    | succ f =>
      simp only [splitAuxF]
      rw [if_neg (fun h => hcsh h.1)]
      rw [ihx (c :: acc) f (fun d hd => hx d (List.mem_cons_of_mem c hd))
        (Nat.succ_le_succ_iff.mp (by simpa using hf))]
      simp

lemma splitAuxF_joinSep (sh : Char) (st : Str) :
    ∀ l : List Str, l ≠ [] → (∀ x ∈ l, ∀ c ∈ x, c ∉ sh :: st) →
      splitAuxF sh st (joinSep (sh :: st) l).length (joinSep (sh :: st) l) [] = l := by
  intro l
  induction l with
  | nil => intro h _; cases h rfl
  | cons x l' ihl =>
    intro _ hx
    cases l' with
    | nil =>
      simp only [joinSep]
      rw [splitAuxF_last sh st x [] x.length (hx x (by simp)) (le_refl _)]
      simp
    | cons y l'' =>
      simp only [joinSep]
      rw [splitAuxF_chunk sh st x (joinSep (sh :: st) (y :: l'')) [] _
        (hx x (by simp)) (le_refl _)]
      rw [ihl (by simp) (fun z hz => hx z (List.mem_cons_of_mem x hz))]
      simp

/-- C5 counterexample: the element string `a,b` is not equal to the delimiter
`,`, yet the round trip splits it into two components rather than returning
the original singleton sequence. -/
theorem dsv_roundtrip_counterexample :
    list_of_dsv (dsv_of_list [['a', ',', 'b']] [',']) [','] = .ok [['a'], ['b']]
    ∧ ([['a'], ['b']] : List Str) ≠ [['a', ',', 'b']] := by
  constructor
  · rfl
  · decide

/-- C5 amended: for every non-empty delimiter and every sequence of strings
none of which contains any character of the delimiter, provided the sequence
is not the singleton consisting of the empty string, splitting the joined
string recovers the sequence; and the empty special cases hold as stated. -/
theorem dsv_roundtrip_amended (l : List Str) (sep : Str) (hsep : sep ≠ [])
    (hchars : ∀ x ∈ l, ∀ c ∈ x, c ∉ sep) (hne : l ≠ [[]]) :
    list_of_dsv (dsv_of_list l sep) sep = .ok l
    ∧ dsv_of_list [] (['@'] : Str) = ([] : Str)
    ∧ list_of_dsv ([] : Str) ['@'] = .ok ([] : List Str) := by
  refine ⟨?_, rfl, rfl⟩
  obtain ⟨sh, st, rfl⟩ : ∃ sh stt, sep = sh :: stt := by
    cases sep with
    | nil => cases hsep rfl
    | cons a b => exact ⟨a, b, rfl⟩
  cases l with
  | nil => rfl
  | cons x l' =>
    have hjoin_ne : dsv_of_list (x :: l') (sh :: st) ≠ [] := by
      cases l' with
      | nil =>
        have hx : x ≠ [] := fun h => hne (by rw [h])
        simpa [dsv_of_list, joinSep] using hx
      | cons y l'' => simp [dsv_of_list, joinSep]
    rw [list_of_dsv, if_neg hjoin_ne]
    simp only [dsv_of_list]
    rw [splitAuxF_joinSep sh st (x :: l') (by simp) hchars]

/-- C5 witness: the amended round trip at the concrete sequence
`[ab, c]` with delimiter `,`, plus the empty special cases. -/
theorem dsv_roundtrip_amended_witness :
    list_of_dsv (dsv_of_list [['a', 'b'], ['c']] [',']) [','] = .ok [['a', 'b'], ['c']]
    ∧ dsv_of_list [] (['@'] : Str) = ([] : Str)
    ∧ list_of_dsv ([] : Str) ['@'] = .ok ([] : List Str) :=
  dsv_roundtrip_amended [['a', 'b'], ['c']] [','] (by decide) (by decide) (by decide)

/-- A segment of a Python format template with auto-numbered positional
placeholders: literal text or one placeholder. -/
inductive FmtSeg where
  | lit (s : Str)
  | pos
  deriving DecidableEq

/-- A format template with positional placeholders, as its segment list. -/
abbrev PosTemplate := List FmtSeg

/-- Models Python `str_format.format(*t)` for templates of literal text and
auto-numbered positional placeholders: placeholders consume the positional
arguments left to right; a placeholder beyond the last argument raises a
builtin `IndexError`; surplus arguments are ignored. -/
def strFormatPos : PosTemplate → List Str → Except PyBaseErr Str
  | [], _ => .ok []
  | .lit s :: rest, args =>
    match strFormatPos rest args with
    | .ok out => .ok (s ++ out)
    | .error e => .error e
  | .pos :: _, [] => .error (.indexError "tuple index out of range")
  | .pos :: rest, v :: args =>
    match strFormatPos rest args with
    | .ok out => .ok (v ++ out)
    | .error e => .error e

/-- Models `str_of_tuple` of `tuples.py`: formats the template with the tuple
elements, wrapping any failure of the underlying formatting in a
key-validation error. -/
def str_of_tuple (t : List Str) (str_format : PosTemplate) : Except PyErr Str :=
  match strFormatPos str_format t with
  | .ok s => .ok s
  | .error e => .error (.keyValidationWrapping e)

/-- The number of positional placeholders of a template. -/
def posCount : PosTemplate → Nat
  | [] => 0
  | .lit _ :: rest => posCount rest
  | .pos :: rest => posCount rest + 1

/-- The template populated positionally with the arguments: the reference
notion of the spec (total; a placeholder past the last argument is dropped,
which cannot happen under the arity hypothesis of the theorems). -/
def populatePos : PosTemplate → List Str → Str
  | [], _ => []
  | .lit s :: rest, args => s ++ populatePos rest args
  | .pos :: rest, [] => populatePos rest []
  | .pos :: rest, v :: args => v ++ populatePos rest args

lemma strFormatPos_ok_of_le :
    ∀ (tmpl : PosTemplate) (args : List Str), posCount tmpl ≤ args.length →
      strFormatPos tmpl args = .ok (populatePos tmpl args) := by
  intro tmpl
  induction tmpl with
  | nil => intro args _; rfl
  | cons seg rest ih =>
    intro args h
    cases seg with
    | lit s => simp [strFormatPos, populatePos, ih args (by simpa [posCount] using h)]
    | pos =>
      cases args with
      | nil => simp [posCount] at h
      | cons v args' =>
        simp [strFormatPos, populatePos, ih args' (by simpa [posCount] using h)]

lemma strFormatPos_indexError :
    ∀ (tmpl : PosTemplate) (args : List Str), args.length < posCount tmpl →
      ∃ msg, strFormatPos tmpl args = .error (.indexError msg) := by
  intro tmpl
  induction tmpl with
  | nil => intro args h; simp [posCount] at h
  | cons seg rest ih =>
    intro args h
    cases seg with
    | lit s =>
      obtain ⟨msg, hmsg⟩ := ih args (by simpa [posCount] using h)
      exact ⟨msg, by simp [strFormatPos, hmsg]⟩
    | pos =>
      cases args with
      | nil => exact ⟨"tuple index out of range", rfl⟩
      | cons v args' =>
        obtain ⟨msg, hmsg⟩ := ih args' (by simp only [posCount, List.length_cons] at h; omega)
        exact ⟨msg, by simp [strFormatPos, hmsg]⟩

/-- C8 counterexample: the template with two placeholders and the
three-element tuple differ in arity, yet formatting succeeds, ignoring the
surplus element (the doctest of the source shows exactly this behaviour). -/
theorem str_of_tuple_counterexample :
    posCount [FmtSeg.pos, FmtSeg.pos] ≠ ([['1'], ['2'], ['3']] : List Str).length
    ∧ str_of_tuple [['1'], ['2'], ['3']] [FmtSeg.pos, FmtSeg.pos] = .ok ['1', '2'] := by
  constructor
  · decide
  · rfl

/-- C8 amended: `str_of_tuple` returns the template populated positionally
whenever the placeholders do not outnumber the tuple elements (surplus
elements are ignored, not an error), and raises a key-validation error
wrapping the underlying `IndexError` exactly when the placeholders outnumber
the elements. -/
theorem str_of_tuple_amended (t : List Str) (tmpl : PosTemplate) :
    (posCount tmpl ≤ t.length → str_of_tuple t tmpl = .ok (populatePos tmpl t))
    ∧ (t.length < posCount tmpl →
        (∃ e, str_of_tuple t tmpl = .error (.keyValidationWrapping e))
        ∧ raisesKeyValidation (str_of_tuple t tmpl) = true) := by
  constructor
  · intro h
    simp [str_of_tuple, strFormatPos_ok_of_le tmpl t h]
  · intro h
    obtain ⟨msg, hmsg⟩ := strFormatPos_indexError tmpl t h
    refine ⟨⟨.indexError msg, by simp [str_of_tuple, hmsg]⟩, ?_⟩
    simp [str_of_tuple, hmsg, raisesKeyValidation, PyErr.isKeyValidation]

/-- C8 witness: formatting succeeds at matching arity and fails with the
key-validation kind when a placeholder has no element. -/
theorem str_of_tuple_amended_witness :
    str_of_tuple [['7']] [FmtSeg.lit ['x'], FmtSeg.pos]
      = .ok (populatePos [FmtSeg.lit ['x'], FmtSeg.pos] [['7']])
    ∧ raisesKeyValidation (str_of_tuple [] [FmtSeg.pos]) = true :=
  ⟨(str_of_tuple_amended [['7']] [FmtSeg.lit ['x'], FmtSeg.pos]).1 (by decide),
   ((str_of_tuple_amended [] [FmtSeg.pos]).2 (by decide)).2⟩

/-- A segment of a Python format template with named placeholders: literal
text or a field reference. -/
inductive NamedFmtSeg where
  | lit (s : Str)
  | field (name : String)
  deriving DecidableEq

/-- A format template with named placeholders, as its segment list. -/
abbrev NamedTemplate := List NamedFmtSeg

/-- Models Python `str_format.format(**d)` for templates of literal text and
named placeholders: each placeholder is replaced by the value of its field in
`d`; a referenced field absent from `d` raises a builtin `KeyError`; entries
of `d` not referenced by the template are ignored. -/
def strFormatNamed : NamedTemplate → PyDict String Str → Except PyBaseErr Str
  | [], _ => .ok []
  | .lit s :: rest, d =>
    match strFormatNamed rest d with
    | .ok out => .ok (s ++ out)
    | .error e => .error e
  | .field f :: rest, d =>
    match pyLookup d f with
    | some v =>
      match strFormatNamed rest d with
      | .ok out => .ok (v ++ out)
      | .error e => .error e
    | none => .error (.keyError f)

/-- Models `str_of_dict` of `tuples.py`: formats the template by field name,
wrapping any failure of the underlying formatting in a key-validation
error. -/
def str_of_dict (d : PyDict String Str) (str_format : NamedTemplate) : Except PyErr Str :=
  match strFormatNamed str_format d with
  | .ok s => .ok s
  | .error e => .error (.keyValidationWrapping e)

/-- The field names referenced by the named placeholders of a template. -/
def fieldNames : NamedTemplate → List String
  | [] => []
  | .lit _ :: rest => fieldNames rest
  | .field f :: rest => f :: fieldNames rest

/-- The named template populated from the dict: the reference notion of the
spec (total; an absent field renders as the empty string, which cannot happen
under the presence hypothesis of the theorems). -/
def populateNamed : NamedTemplate → PyDict String Str → Str
  | [], _ => []
  | .lit s :: rest, d => s ++ populateNamed rest d
  | .field f :: rest, d => (pyLookup d f).getD [] ++ populateNamed rest d

lemma strFormatNamed_ok_of_mem :
    ∀ (tmpl : NamedTemplate) (d : PyDict String Str),
      (∀ f ∈ fieldNames tmpl, (pyLookup d f).isSome = true) →
      strFormatNamed tmpl d = .ok (populateNamed tmpl d) := by
  intro tmpl
  induction tmpl with
  | nil => intro d _; rfl
  | cons seg rest ih =>
    intro d h
    cases seg with
    | lit s => simp [strFormatNamed, populateNamed, ih d (by simpa [fieldNames] using h)]
    | field f =>
      obtain ⟨v, hv⟩ := Option.isSome_iff_exists.mp (h f (by simp [fieldNames]))
      have hrest := ih d (fun g hg => h g (by simp [fieldNames, hg]))
      simp [strFormatNamed, populateNamed, hv, hrest]

lemma strFormatNamed_keyError :
    ∀ (tmpl : NamedTemplate) (d : PyDict String Str),
      (∃ f ∈ fieldNames tmpl, pyLookup d f = none) →
      ∃ k, strFormatNamed tmpl d = .error (.keyError k) := by
  intro tmpl
  induction tmpl with
  | nil =>
    rintro d ⟨f, hf, _⟩
    simp [fieldNames] at hf
  | cons seg rest ih =>
    rintro d ⟨g, hg, hnone⟩
    cases seg with
    | lit s =>
      obtain ⟨k, hk⟩ := ih d ⟨g, by simpa [fieldNames] using hg, hnone⟩
      exact ⟨k, by simp [strFormatNamed, hk]⟩
    | field f =>
      cases hvf : pyLookup d f with
      | none => exact ⟨f, by simp [strFormatNamed, hvf]⟩
      | some v =>
        have hgrest : g ∈ fieldNames rest := by
          rcases (by simpa [fieldNames] using hg : g = f ∨ g ∈ fieldNames rest) with h1 | h2
          · subst h1; rw [hvf] at hnone; cases hnone
          · exact h2
        obtain ⟨k, hk⟩ := ih d ⟨g, hgrest, hnone⟩
        exact ⟨k, by simp [strFormatNamed, hvf, hk]⟩

/-- C9 counterexample: the dict has the field `B` missing from the
placeholders of the template, yet formatting succeeds, ignoring the extra
field, instead of raising a key-validation error. -/
theorem str_of_dict_counterexample :
    str_of_dict [("A", ['a']), ("B", ['b'])] [NamedFmtSeg.field "A"] = .ok ['a']
    ∧ "B" ∉ fieldNames [NamedFmtSeg.field "A"] := by
  constructor
  · rfl
  · decide

/-- C9 amended: `str_of_dict` returns the template populated by field name
whenever every referenced field is present in the dict (entries of the dict
not referenced by the template are ignored, not an error), and raises a
key-validation error wrapping the underlying `KeyError` exactly when some
placeholder references a field absent from the dict. -/
theorem str_of_dict_amended (d : PyDict String Str) (tmpl : NamedTemplate) :
    ((∀ f ∈ fieldNames tmpl, (pyLookup d f).isSome = true) →
      str_of_dict d tmpl = .ok (populateNamed tmpl d))
    ∧ ((∃ f ∈ fieldNames tmpl, pyLookup d f = none) →
        (∃ e, str_of_dict d tmpl = .error (.keyValidationWrapping e))
        ∧ raisesKeyValidation (str_of_dict d tmpl) = true) := by
  constructor
  · intro h
    simp [str_of_dict, strFormatNamed_ok_of_mem tmpl d h]
  · intro h
    obtain ⟨k, hk⟩ := strFormatNamed_keyError tmpl d h
    refine ⟨⟨.keyError k, by simp [str_of_dict, hk]⟩, ?_⟩
    simp [str_of_dict, hk, raisesKeyValidation, PyErr.isKeyValidation]

/-- C9 witness: formatting succeeds when all referenced fields are present
and fails with the key-validation kind on a missing referenced field. -/
theorem str_of_dict_amended_witness :
    str_of_dict [("A", ['a']), ("B", ['b'])]
        [NamedFmtSeg.field "A", NamedFmtSeg.field "B"]
      = .ok (populateNamed [NamedFmtSeg.field "A", NamedFmtSeg.field "B"]
          [("A", ['a']), ("B", ['b'])])
    ∧ raisesKeyValidation (str_of_dict [] [NamedFmtSeg.field "A"]) = true :=
  ⟨(str_of_dict_amended [("A", ['a']), ("B", ['b'])]
      [NamedFmtSeg.field "A", NamedFmtSeg.field "B"]).1 (by decide),
   ((str_of_dict_amended [] [NamedFmtSeg.field "A"]).2
      ⟨"A", by simp [fieldNames], rfl⟩).2⟩

/-- A Python `re` match object, as the codecs consume it: the tuple of
captured groups (`none` for a non-participating group) and the mapping from
named group to captured substring. Modelled from the spec: the `re` module is
an external collaborator, so the match result is primitive data. -/
structure PyMatch where
  groups : List (Option Str)
  groupdict : List (String × Option Str)
  deriving DecidableEq

/-- A compiled regular expression, as the codecs consume it: the primitive
`.match` operation, anchored at the start of the string, returning a match
object or nothing. Modelled from the spec: the pattern itself is external to
the repository; only this matching primitive is used by the codecs. -/
structure CompiledRegex where
  rmatch : Str → Option PyMatch

/-- Models `tuple_of_str` of `tuples.py`: the captured groups when the
pattern matches, a key-validation error otherwise. -/
def tuple_of_str (s : Str) (compiled_regex : CompiledRegex) :
    Except PyErr (List (Option Str)) :=
  match compiled_regex.rmatch s with
  | some m => .ok m.groups
  | none => .error (.keyValidationError
      ("The string " ++ String.mk s ++ " did not match the pattern"))

/-- Models `dict_of_str` of `tuples.py`: the named-group dictionary when the
pattern matches, a key-validation error otherwise. -/
def dict_of_str (s : Str) (compiled_regex : CompiledRegex) :
    Except PyErr (List (String × Option Str)) :=
  match compiled_regex.rmatch s with
  | some m => .ok m.groupdict
  | none => .error (.keyValidationError
      ("The string " ++ String.mk s ++ " did not match the pattern"))

/-- C7: `tuple_of_str` returns the captured groups of the match whenever the
pattern matches, and raises a key-validation error exactly when the pattern
does not match at all; `dict_of_str` likewise with the named-group
dictionary. -/
theorem tuple_dict_of_str_match_iff (s : Str) (p : CompiledRegex) :
    (∀ m, p.rmatch s = some m →
      tuple_of_str s p = .ok m.groups ∧ dict_of_str s p = .ok m.groupdict)
    ∧ (raisesKeyValidation (tuple_of_str s p) = true ↔ p.rmatch s = none)
    ∧ (raisesKeyValidation (dict_of_str s p) = true ↔ p.rmatch s = none) := by
  cases hm : p.rmatch s with
  | none =>
    refine ⟨?_, ?_, ?_⟩
    · intro m h; cases h
    · simp [tuple_of_str, hm, raisesKeyValidation, PyErr.isKeyValidation]
    · simp [dict_of_str, hm, raisesKeyValidation, PyErr.isKeyValidation]
  | some m0 =>
    refine ⟨?_, ?_, ?_⟩
    · intro m h
      cases h
      exact ⟨by simp [tuple_of_str, hm], by simp [dict_of_str, hm]⟩
    · simp [tuple_of_str, hm, raisesKeyValidation]
    · simp [dict_of_str, hm, raisesKeyValidation]

/-- A concrete compiled pattern: matches a string starting with three digits
followed by a word character, capturing the digits (models the matching
doctest pattern of the source). -/
def patThreeDigitsWord : CompiledRegex where
  rmatch s :=
    match s with
    | a :: b :: c :: w :: _ =>
      if a.isDigit && b.isDigit && c.isDigit && (w.isAlphanum || w = '_') then
        some ⟨[some [a, b, c]], [("digits", some [a, b, c])]⟩
      else none
    | _ => none

/-- A concrete compiled pattern: requires four leading digits, which
`123ABC` lacks (models the non-matching doctest pattern of the source). -/
def patFourDigits : CompiledRegex where
  rmatch s :=
    match s with
    | a :: b :: c :: d :: _ =>
      if a.isDigit && b.isDigit && c.isDigit && d.isDigit then
        some ⟨[some [a, b, c, d]], []⟩
      else none
    | _ => none

/-- C7 witness: the three-digit pattern matches `123ABC` and the codec yields
its captured group; the four-digit pattern does not match `123ABC` and the
codec fails with the key-validation kind. -/
theorem tuple_dict_of_str_match_iff_witness :
    tuple_of_str ['1', '2', '3', 'A', 'B', 'C'] patThreeDigitsWord
      = .ok [some ['1', '2', '3']]
    ∧ raisesKeyValidation
        (tuple_of_str ['1', '2', '3', 'A', 'B', 'C'] patFourDigits) = true :=
  ⟨((tuple_dict_of_str_match_iff ['1', '2', '3', 'A', 'B', 'C'] patThreeDigitsWord).1
      ⟨[some ['1', '2', '3']], [("digits", some ['1', '2', '3'])]⟩ (by decide)).1,
   (tuple_dict_of_str_match_iff ['1', '2', '3', 'A', 'B', 'C'] patFourDigits).2.1.mpr
      (by decide)⟩

/-- C10 counterexample: with matching lengths but a stray field, the failure
of `tuple_of_dict` is the propagated builtin `KeyError` from the mapping
lookup, not the key-validation kind. -/
theorem uniform_error_kind_counterexample :
    tuple_of_dict [("a", (1 : Nat))] ["b"]
      = .error (PyErr.propagated (PyBaseErr.keyError "b"))
    ∧ raisesKeyValidation (tuple_of_dict [("a", (1 : Nat))] ["b"]) = false := by
  constructor
  · rfl
  · rfl

/-- C10 amended: the failures the codecs raise themselves on arity mismatch,
pattern non-match, or underlying formatting failure are all of the
key-validation kind; but for a mapping and an equal-length field list
containing a field absent from the mapping, `tuple_of_dict` propagates the
builtin missing-key error (`KeyError`) unwrapped, which is not of the
key-validation kind. -/
theorem error_kind_uniformity_amended {K V : Type} [DecidableEq K] [ToString K]
    (d d2 : PyDict K V) (fields fields2 : List K)
    (hlen : fields.length = d.length) (hmiss : ∃ f ∈ fields, pyLookup d f = none)
    (harity : fields2.length ≠ d2.length)
    (s : Str) (p : CompiledRegex) (hp : p.rmatch s = none)
    (t : List Str) (tmpl : PosTemplate) (hfmt : t.length < posCount tmpl) :
    (∃ k, tuple_of_dict d fields = .error (.propagated (.keyError k)))
    ∧ raisesKeyValidation (tuple_of_dict d fields) = false
    ∧ raisesKeyValidation (tuple_of_dict d2 fields2) = true
    ∧ raisesKeyValidation (tuple_of_str s p) = true
    ∧ raisesKeyValidation (str_of_tuple t tmpl) = true := by
  obtain ⟨k, hk⟩ := getItems_keyError d fields hmiss
  have htd : tuple_of_dict d fields = .error (.propagated (.keyError k)) := by
    rw [tuple_of_dict_ok_len d fields hlen, hk]
  refine ⟨⟨k, htd⟩, ?_, tuple_of_dict_arity d2 fields2 harity, ?_, ?_⟩
  · rw [htd]; rfl
  · simp [tuple_of_str, hp, raisesKeyValidation, PyErr.isKeyValidation]
  · obtain ⟨msg, hmsg⟩ := strFormatPos_indexError tmpl t hfmt
    simp [str_of_tuple, hmsg, raisesKeyValidation, PyErr.isKeyValidation]

/-- C10 witness: concrete instances of each scenario of the amended claim. -/
theorem error_kind_uniformity_amended_witness :
    (∃ k, tuple_of_dict [("a", (1 : Nat)), ("c", 3)] ["a", "b"]
        = .error (.propagated (.keyError k)))
    ∧ raisesKeyValidation (tuple_of_dict [("a", (1 : Nat)), ("c", 3)] ["a", "b"]) = false
    ∧ raisesKeyValidation (tuple_of_dict [("x", (1 : Nat))] ["x", "y"]) = true
    ∧ raisesKeyValidation (tuple_of_str ['1'] patFourDigits) = true
    ∧ raisesKeyValidation (str_of_tuple [] [FmtSeg.pos]) = true :=
  error_kind_uniformity_amended
    [("a", (1 : Nat)), ("c", 3)] [("x", (1 : Nat))] ["a", "b"] ["x", "y"]
    (by decide) ⟨"b", by decide, rfl⟩ (by decide)
    ['1'] patFourDigits rfl [] [FmtSeg.pos] (by decide)
